import Mathlib

/-!
Verification of the csbench provisioning/reporting engine (`csbench.go`).

Shallow embedding conventions: Go `float64` durations are modelled as
rationals, wall-clock time and remote-call outcomes are abstracted into
environment-supplied values, and Go slices become Lean lists.
-/

namespace CSBench

/-- Model of the Go struct `Result` (csbench.go:48): one task outcome. -/
structure Result where
  Success : Bool
  Duration : ℚ
deriving DecidableEq

/-- Model of Go `math.Round`: round half away from zero to the nearest integer. -/
def goRound (x : ℚ) : ℚ :=
  if 0 ≤ x then ((⌊x + 1/2⌋ : ℤ) : ℚ) else ((⌈x - 1/2⌉ : ℤ) : ℚ)

/-- Model of the Go idiom `math.Round(x*1000)/1000` used throughout
csbench.go: round to 3 decimal places. -/
def round3 (x : ℚ) : ℚ := goRound (x * 1000) / 1000

/-- Rounding half away from zero is monotone. -/
theorem goRound_mono {x y : ℚ} (h : x ≤ y) : goRound x ≤ goRound y := by
  unfold goRound
  by_cases hx : 0 ≤ x
  · rw [if_pos hx, if_pos (le_trans hx h)]
    exact_mod_cast Int.floor_mono (by linarith)
  · rw [if_neg hx]
    by_cases hy : 0 ≤ y
    · rw [if_pos hy]
      have h1 : (⌈x - 1/2⌉ : ℤ) ≤ 0 := Int.ceil_le.mpr (by push_neg at hx; push_cast; linarith)
      have h2 : (0 : ℤ) ≤ ⌊y + 1/2⌋ := Int.le_floor.mpr (by push_cast; linarith)
      exact_mod_cast le_trans h1 h2
    · rw [if_neg hy]
      exact_mod_cast Int.ceil_mono (by linarith)

/-- Rounding to three decimals is monotone. -/
theorem round3_mono {x y : ℚ} (h : x ≤ y) : round3 x ≤ round3 y := by
  unfold round3
  have := goRound_mono (show x * 1000 ≤ y * 1000 by linarith)
  linarith

/-- `goRound` fixes integers. -/
theorem goRound_intCast (k : ℤ) : goRound (k : ℚ) = k := by
  unfold goRound
  by_cases hk : (0 : ℚ) ≤ (k : ℚ)
  · rw [if_pos hk]
    norm_cast
    rw [Int.floor_eq_iff]
    constructor
    · linarith
    · push_cast
      linarith
  · rw [if_neg hk]
    norm_cast
    rw [Int.ceil_eq_iff]
    constructor
    · push_cast
      linarith
    · linarith

/-- `round3` fixes integers. -/
theorem round3_intCast (k : ℤ) : round3 (k : ℚ) = k := by
  unfold round3
  have h : (k : ℚ) * 1000 = ((k * 1000 : ℤ) : ℚ) := by push_cast; ring
  rw [h, goRound_intCast]
  push_cast
  ring

/-- Model of `getSamples` (csbench.go:108-124): a fold over the results
slice, appending the rounded duration to the all-executions sample and to
the successful or failed sample according to the `Success` flag. -/
def getSamples (results : List Result) : List ℚ × List ℚ × List ℚ :=
  results.foldl
    (fun acc r =>
      let duration := round3 r.Duration
      (acc.1 ++ [duration],
       if r.Success then acc.2.1 ++ [duration] else acc.2.1,
       if r.Success then acc.2.2 else acc.2.2 ++ [duration]))
    ([], [], [])

theorem getSamples_go (results : List Result) :
    ∀ a s f : List ℚ,
      results.foldl
        (fun acc r =>
          let duration := round3 r.Duration
          (acc.1 ++ [duration],
           if r.Success then acc.2.1 ++ [duration] else acc.2.1,
           if r.Success then acc.2.2 else acc.2.2 ++ [duration]))
        (a, s, f) =
      (a ++ results.map fun r => round3 r.Duration,
       s ++ ((results.filter fun r => r.Success).map fun r => round3 r.Duration),
       f ++ ((results.filter fun r => !r.Success).map fun r => round3 r.Duration)) := by
  induction results with
  | nil => intro a s f; simp
  | cons r rs ih =>
      intro a s f
      by_cases hr : r.Success = true
      · simp [List.foldl_cons, ih, hr, List.filter_cons]
      · have hr' : r.Success = false := by
          cases h : r.Success
          · rfl
          · exact absurd h hr
        simp [List.foldl_cons, ih, hr', List.filter_cons]

/-- Characterisation of `getSamples` as map/filter. -/
theorem getSamples_eq (results : List Result) :
    getSamples results =
      (results.map fun r => round3 r.Duration,
       (results.filter fun r => r.Success).map fun r => round3 r.Duration,
       (results.filter fun r => !r.Success).map fun r => round3 r.Duration) := by
  have h := getSamples_go results [] [] []
  simpa [getSamples] using h

/-- Sorted copy of a sample, as taken by the statistics routines before
computing order statistics. -/
def sortQ (l : List ℚ) : List ℚ := Multiset.sort (· ≤ ·) (↑l : Multiset ℚ)

theorem sortQ_sorted (l : List ℚ) : List.Sorted (· ≤ ·) (sortQ l) :=
  Multiset.sort_sorted _ _

theorem length_sortQ (l : List ℚ) : (sortQ l).length = l.length := by
  rw [sortQ, Multiset.length_sort]
  exact Multiset.coe_card _

theorem mem_sortQ (l : List ℚ) (a : ℚ) : a ∈ sortQ l ↔ a ∈ l := by
  rw [sortQ, Multiset.mem_sort]
  exact Multiset.mem_coe

/-- Modelled from the spec: the statistics dependency of
`getRowFromSample` is external to `src/`. Sample minimum: the first
element, then a linear scan keeping the smaller value; no value on an
empty sample (where the library reports an error alongside a NaN value,
modelled as `none`). -/
def statsMin : List ℚ → Option ℚ
  | [] => none
  | x :: xs => some (xs.foldl min x)

/-- Modelled from the spec: sample maximum, dually to `statsMin`. -/
def statsMax : List ℚ → Option ℚ
  | [] => none
  | x :: xs => some (xs.foldl max x)

/-- Modelled from the spec: arithmetic mean, sum divided by size. -/
def statsMean (input : List ℚ) : Option ℚ :=
  if input.length = 0 then none else some (input.sum / input.length)

/-- Modelled from the spec: the standard median over the sorted copy —
the middle element for odd sizes, the average of the two middle elements
for even sizes. -/
def statsMedian (input : List ℚ) : Option ℚ :=
  let c := sortQ input
  if c.length = 0 then none
  else if c.length % 2 = 0 then
    some ((c.getD (c.length / 2 - 1) 0 + c.getD (c.length / 2) 0) / 2)
  else some (c.getD (c.length / 2) 0)

/-- Modelled from the spec: percentile by linear interpolation between
order statistics. A single-element sample returns its element; otherwise,
for `index = percent/100 * n` over the sorted copy, a whole `index` picks
the `index`-th order statistic and a fractional `index` (greater than 1)
averages the order statistics on either side; out-of-range percent gives
no value. -/
def statsPercentile (input : List ℚ) (percent : ℚ) : Option ℚ :=
  if input.length = 0 then none
  else if input.length = 1 then some (input.getD 0 0)
  else if percent ≤ 0 ∨ 100 < percent then none
  else
    let c := sortQ input
    let index : ℚ := percent / 100 * (c.length : ℚ)
    if index = (⌊index⌋ : ℚ) then some (c.getD (⌊index⌋.toNat - 1) 0)
    else if 1 < index then
      some ((c.getD (⌊index⌋.toNat - 1) 0 + c.getD ⌊index⌋.toNat 0) / 2)
    else none

/-- Model of the go-pretty row built by `getRowFromSample`
(csbench.go:126-143): label, count and the rounded statistics in column
order. A statistic the library could not compute (empty sample) is NaN in
Go, modelled as `none`. -/
structure StatRow where
  label : String
  count : Nat
  Min : Option ℚ
  Max : Option ℚ
  Avg : Option ℚ
  Median : Option ℚ
  P90 : Option ℚ
  P95 : Option ℚ
  P99 : Option ℚ
deriving DecidableEq

/-- Model of `getRowFromSample` (csbench.go:126-143): each statistic is
taken from the sample and rounded to three decimals. -/
def getRowFromSample (key : String) (sample : List ℚ) : StatRow :=
  { label := key
    count := sample.length
    Min := (statsMin sample).map round3
    Max := (statsMax sample).map round3
    Avg := (statsMean sample).map round3
    Median := (statsMedian sample).map round3
    P90 := (statsPercentile sample 90).map round3
    P95 := (statsPercentile sample 95).map round3
    P99 := (statsPercentile sample 99).map round3 }

/-- Rows appended for one category by the loop body of `generateReport`
(csbench.go:164-172): an "All" row always, and "Successful" and "Failed"
rows exactly when the failed sample has non-zero length. -/
def categoryRows (kr : String × List Result) : List StatRow :=
  let s := getSamples kr.2
  getRowFromSample (kr.1 ++ " - All") s.1 ::
    (if s.2.2.length ≠ 0 then
      [getRowFromSample (kr.1 ++ " - Successful") s.2.1,
       getRowFromSample (kr.1 ++ " - Failed") s.2.2]
    else [])

/-- All rows appended by `generateReport` (csbench.go:164-172); the Go map
iteration order is abstracted as the association-list order. -/
def reportRows (results : List (String × List Result)) : List StatRow :=
  results.flatMap categoryRows

/-- The (label, sample) argument of every `getRowFromSample` call made by
`generateReport` (csbench.go:166-170), in call order. -/
def reducerInvocations (results : List (String × List Result)) : List (String × List ℚ) :=
  results.flatMap fun kr =>
    let s := getSamples kr.2
    (kr.1 ++ " - All", s.1) ::
      (if s.2.2.length ≠ 0 then
        [(kr.1 ++ " - Successful", s.2.1), (kr.1 ++ " - Failed", s.2.2)]
      else [])

/-- Destination held by the go-pretty output mirror. `SetOutputMirror`
stores a single writer, replacing any previous one; `invalid` is the nil
file handle installed after a failed `os.Create` (writes to it fail). -/
inductive Writer
  | stdout
  | file (path : String)
  | invalid
deriving DecidableEq

/-- Observable outcome of one `generateReport` call: the writer the table
is mirrored to at render time, whether a file-creation error was logged,
the appended rows, and whether the format switch rendered anything. -/
structure ReportOutput where
  mirror : Writer
  errorLogged : Bool
  rows : List StatRow
  rendered : Bool
deriving DecidableEq

/-- Model of `generateReport` (csbench.go:157-190): the mirror is first
set to stdout; when `outputFile` is non-empty the mirror is then set to
the created file, or — after logging the creation error — to the nil
handle. `createOk` abstracts whether `os.Create outputFile` succeeds. -/
def generateReport (results : List (String × List Result)) (format outputFile : String)
    (createOk : Bool) : ReportOutput :=
  let mirror0 := Writer.stdout
  { mirror :=
      if outputFile ≠ "" then
        if createOk then Writer.file outputFile else Writer.invalid
      else mirror0
    errorLogged := if outputFile ≠ "" then (if createOk then false else true) else false
    rows := reportRows results
    rendered := format == "csv" || format == "tsv" || format == "table" }

/-- Modelled from the spec: the worker pool (the conc/pool dependency is
not under `src/`). Tasks are recorded in submission order and `wait`
returns one outcome per submitted task (spec section 4.1); the eventual
outcome of a task is the value its closure returns. -/
structure ResultPool where
  tasks : List Result
deriving DecidableEq

/-- Model of `pool.Go`: submit one task. -/
def ResultPool.go (p : ResultPool) (r : Result) : ResultPool := ⟨p.tasks ++ [r]⟩

/-- Model of `pool.Wait`: drain the pool, returning every outcome. -/
def ResultPool.wait (p : ResultPool) : List Result := p.tasks

/-- A freshly constructed pool, as built by `createResources`. -/
def emptyResultPool : ResultPool := ⟨[]⟩

/-- Remote-call behaviour seen by one `createDomains` task: whether
`domain.CreateDomain` and `domain.CreateAccount` fail, and the elapsed
time measured at each of the three return points. -/
structure DomainTaskEnv where
  createDomainErr : Bool
  createAccountErr : Bool
  durOnDomainErr : ℚ
  durOnAccountErr : ℚ
  durOnSuccess : ℚ
deriving DecidableEq

/-- Model of the task closure submitted by `createDomains`
(csbench.go:318-339): an error from either remote call yields a
`Success := false` outcome, otherwise `Success := true`. -/
def domainTask (e : DomainTaskEnv) : Result :=
  if e.createDomainErr then { Success := false, Duration := e.durOnDomainErr }
  else if e.createAccountErr then { Success := false, Duration := e.durOnAccountErr }
  else { Success := true, Duration := e.durOnSuccess }

/-- Model of `createDomains` (csbench.go:310-344): submit `count` tasks to
the pool, then wait and return every outcome. -/
def createDomains (pool : ResultPool) (env : Nat → DomainTaskEnv) (count : Nat) :
    List Result :=
  ((List.range count).foldl (fun p i => p.go (domainTask (env i))) pool).wait

/-- Model of `int(math.Ceil(float64(count) / 10.0))` (csbench.go:311): for
a natural count this is the ceiling of count/10. -/
def progressMarker (count : Nat) : Nat := (count + 9) / 10

/-- The spec's formula for the progress interval, for comparison:
`max(1, ceil(N/10))`. -/
def specProgressMarker (count : Nat) : Nat := max 1 ((count + 9) / 10)

/-- Progress log lines of the `createDomains` submission loop
(csbench.go:314-317): the logged count `i+1` for every iteration with
`(i+1) % progressMarker == 0`. -/
def createDomainsLogs (count : Nat) : List Nat :=
  (List.range count).filterMap fun i =>
    if (i + 1) % progressMarker count = 0 then some (i + 1) else none

/-- The divisor of every modulo operation the `createDomains` submission
loop evaluates (one per iteration). -/
def createDomainsModuli (count : Nat) : List Nat :=
  (List.range count).map fun _ => progressMarker count

/-- The nested iteration space of `createVms` (csbench.go:433-455): pairs
of the 0-based network index and the 1-based per-network VM counter. -/
def vmSteps (numNetworks numVmPerNetwork : Nat) : List (Nat × Nat) :=
  (List.range numNetworks).flatMap fun i =>
    (List.range numVmPerNetwork).map fun j0 => (i, j0 + 1)

/-- Progress log lines of the `createVms` submission loops
(csbench.go:437-439): for each step (i, j) with
`(i*j+j) % progressMarker == 0`, the pair of the running submission index
`i*numVmPerNetwork + j` and the logged count `i*j + j`. -/
def createVmsLogs (numNetworks numVmPerNetwork : Nat) : List (Nat × Nat) :=
  (vmSteps numNetworks numVmPerNetwork).filterMap fun ij =>
    if (ij.1 * ij.2 + ij.2) % progressMarker (numNetworks * numVmPerNetwork) = 0 then
      some (ij.1 * numVmPerNetwork + ij.2, ij.1 * ij.2 + ij.2)
    else none

/-- The divisor of every modulo operation the `createVms` submission loops
evaluate (one per step). -/
def createVmsModuli (numNetworks numVmPerNetwork : Nat) : List Nat :=
  (vmSteps numNetworks numVmPerNetwork).map fun _ =>
    progressMarker (numNetworks * numVmPerNetwork)

/-- Configuration profile, reduced to the only field `createResources`
inspects (the config package is not under `src/`). -/
structure Profile where
  Name : String
deriving DecidableEq

/-- The five resource-creation flags handed to `createResources`. -/
structure CreateFlags where
  domain : Bool
  limits : Bool
  network : Bool
  vm : Bool
  volume : Bool
deriving DecidableEq

/-- Outcome lists of the five create helpers, abstracted because their
contents depend on remote calls. -/
structure CategoryEnv where
  domainResults : List Result
  limitsResults : List Result
  networkResults : List Result
  vmResults : List Result
  volumeResults : List Result

/-- Model of `createResources` (csbench.go:266-308): scan the profiles
for one named "admin"; with one, build the result map whose keys follow
the enabled flags and return it; without one, fall through to
`return nil`. The Go map iteration order is abstracted as list order. -/
def createResources (flags : CreateFlags) (profileList : List Profile) (env : CategoryEnv) :
    Option (List (String × List Result)) :=
  match profileList.find? (fun p => p.Name == "admin") with
  | some _ =>
      some ((if flags.domain then [("domain", env.domainResults)] else []) ++
            (if flags.limits then [("limits", env.limitsResults)] else []) ++
            (if flags.network then [("network", env.networkResults)] else []) ++
            (if flags.vm then [("vm", env.vmResults)] else []) ++
            (if flags.volume then [("volume", env.volumeResults)] else []))
  | none => none

/-- A nil Go map iterates as empty: the category list `generateReport`
sees when `createResources` returns nil. -/
def resultsOrEmpty (o : Option (List (String × List Result))) :
    List (String × List Result) :=
  o.getD []

theorem createDomains_eq (pool : ResultPool) (env : Nat → DomainTaskEnv) (count : Nat) :
    createDomains pool env count =
      pool.tasks ++ (List.range count).map fun i => domainTask (env i) := by
  unfold createDomains
  induction count with
  | zero => simp [ResultPool.wait]
  | succ n ih =>
      rw [List.range_succ, List.foldl_append, List.foldl_cons, List.foldl_nil]
      have hgo : ∀ q : ResultPool,
          (q.go (domainTask (env n))).wait = q.wait ++ [domainTask (env n)] := fun q => rfl
      rw [hgo, ih]
      simp

/-- C1: the pool returns exactly one outcome per submitted task — after
`createDomains` submits N tasks, `Wait` returns exactly N outcomes — and
when every task fails, each error is captured as a `Success := false`
outcome instead of surfacing as a pool-level failure. -/
theorem wait_yields_one_outcome_per_task :
    (∀ (env : Nat → DomainTaskEnv) (count : Nat),
        (createDomains emptyResultPool env count).length = count) ∧
    (∀ (env : Nat → DomainTaskEnv) (count : Nat),
        (∀ i, i < count →
            (env i).createDomainErr = true ∨ (env i).createAccountErr = true) →
          ∀ r ∈ createDomains emptyResultPool env count, r.Success = false) := by
  constructor
  · intro env count
    rw [createDomains_eq]
    simp [emptyResultPool]
  · intro env count h r hr
    rw [createDomains_eq] at hr
    simp only [emptyResultPool, List.nil_append, List.mem_map, List.mem_range] at hr
    obtain ⟨i, hi, rfl⟩ := hr
    rcases h i hi with he | he
    · simp [domainTask, he]
    · by_cases hd : (env i).createDomainErr = true <;> simp [domainTask, hd, he]

theorem wait_yields_one_outcome_per_task_witness :
    (createDomains emptyResultPool
        (fun _ => ⟨true, false, 1, 2, 3⟩) 2).length = 2 ∧
    Result.Success { Success := false, Duration := 1 } = false :=
  ⟨wait_yields_one_outcome_per_task.1 (fun _ => ⟨true, false, 1, 2, 3⟩) 2,
   wait_yields_one_outcome_per_task.2 (fun _ => ⟨true, false, 1, 2, 3⟩) 2
     (fun _ _ => Or.inl rfl) { Success := false, Duration := 1 }
     (by rw [createDomains_eq]; simp [emptyResultPool, domainTask])⟩

/-- C2: `getSamples` partitions every result list — the all-sample length
is the sum of the success- and failure-sample lengths, every duration is
rounded to three decimals before insertion into any sample, and a
duration lands in the success sample exactly when its `Success` flag is
true. -/
theorem getSamples_partition (results : List Result) :
    (getSamples results).1.length =
        (getSamples results).2.1.length + (getSamples results).2.2.length ∧
    getSamples results =
      (results.map fun r => round3 r.Duration,
       (results.filter fun r => r.Success).map fun r => round3 r.Duration,
       (results.filter fun r => !r.Success).map fun r => round3 r.Duration) := by
  refine ⟨?_, getSamples_eq results⟩
  rw [getSamples_eq]
  simp only [List.length_map]
  induction results with
  | nil => simp
  | cons r rs ih =>
      by_cases hr : r.Success = true <;>
        simp [List.filter_cons, hr, List.length_cons] <;> omega

/-- C3: for every category, `generateReport` always emits an "All" row,
and emits the "Successful" and "Failed" rows if and only if the failure
sample of that category is non-empty (zero failures suppress both). -/
theorem report_rows_per_category (key : String) (rs : List Result) :
    categoryRows (key, rs) =
      (if (getSamples rs).2.2 = [] then
        [getRowFromSample (key ++ " - All") (getSamples rs).1]
      else
        [getRowFromSample (key ++ " - All") (getSamples rs).1,
         getRowFromSample (key ++ " - Successful") (getSamples rs).2.1,
         getRowFromSample (key ++ " - Failed") (getSamples rs).2.2]) ∧
    ((getSamples rs).2.2 = [] ↔ ∀ r ∈ rs, r.Success = true) := by
  constructor
  · by_cases h : (getSamples rs).2.2 = []
    · simp [categoryRows, h]
    · have hl : (getSamples rs).2.2.length ≠ 0 := by
        simpa [List.length_eq_zero] using h
      simp [categoryRows, h, hl]
  · rw [getSamples_eq]
    simp only [List.map_eq_nil_iff, List.filter_eq_nil_iff]
    constructor
    · intro h r hr
      have := h r hr
      simpa using this
    · intro h r hr
      simp [h r hr]

/-- C7: with 47 submitted tasks the progress interval is ceil(47/10) = 5
and exactly 9 progress lines are emitted during submission, at submission
indices 5, 10, ..., 45 and not at 47. -/
theorem progress_logs_47 :
    progressMarker 47 = 5 ∧
    createDomainsLogs 47 = [5, 10, 15, 20, 25, 30, 35, 40, 45] ∧
    (createDomainsLogs 47).length = 9 ∧ 47 ∉ createDomainsLogs 47 := by
  refine ⟨rfl, by decide, by decide, by decide⟩

/-- C8 counterexample: at N = 0 the code computes the interval as
ceil(0/10) = 0, not as max(1, ceil(0/10)) = 1. -/
theorem progress_marker_zero :
    progressMarker 0 = 0 ∧ specProgressMarker 0 = 1 ∧
    progressMarker 0 ≠ specProgressMarker 0 := by decide

/-- C8 amended: the interval is computed as ceil(N/10) with no max(1, ·)
guard, so it is 0 at N = 0; it agrees with max(1, ceil(N/10)) for every
N ≥ 1, and no modulo by zero occurs during submission because every
evaluated modulo (none when N = 0) has a positive divisor. -/
theorem progress_marker_safe :
    (∀ n : Nat, 1 ≤ n → progressMarker n = specProgressMarker n) ∧
    (∀ n d : Nat, d ∈ createDomainsModuli n → 0 < d) ∧
    (∀ nN nV d : Nat, d ∈ createVmsModuli nN nV → 0 < d) := by
  refine ⟨?_, ?_, ?_⟩
  · intro n h
    unfold progressMarker specProgressMarker
    omega
  · intro n d hd
    unfold createDomainsModuli at hd
    rw [List.mem_map] at hd
    obtain ⟨i, hi, rfl⟩ := hd
    rw [List.mem_range] at hi
    unfold progressMarker
    omega
  · intro nN nV d hd
    unfold createVmsModuli at hd
    rw [List.mem_map] at hd
    obtain ⟨ij, hij, rfl⟩ := hd
    unfold vmSteps at hij
    rw [List.mem_flatMap] at hij
    obtain ⟨i, hi, hmem⟩ := hij
    rw [List.mem_map] at hmem
    obtain ⟨j0, hj0, rfl⟩ := hmem
    rw [List.mem_range] at hi
    rw [List.mem_range] at hj0
    unfold progressMarker
    have : 1 ≤ nN * nV :=
      Nat.one_le_iff_ne_zero.mpr (Nat.mul_ne_zero (by omega) (by omega))
    omega

theorem progress_marker_safe_witness :
    progressMarker 47 = specProgressMarker 47 ∧ 0 < progressMarker 47 ∧
    0 < progressMarker (3 * 4) :=
  ⟨progress_marker_safe.1 47 (by decide),
   progress_marker_safe.2.1 47 (progressMarker 47) (by decide),
   progress_marker_safe.2.2 3 4 (progressMarker (3 * 4)) (by decide)⟩

/-- C9 counterexample: with 3 networks and 4 VMs per network (N = 12,
M = 2), `createVms` emits a progress line at running submission index 5
(logging the count 2), although 5 is not a multiple of M. -/
theorem vms_progress_log_off_index :
    (5, 2) ∈ createVmsLogs 3 4 ∧ 5 % progressMarker (3 * 4) ≠ 0 := by decide

/-- C9 amended: in the single-loop submission of `createDomains` a
progress line is emitted exactly when the running submission index is a
multiple of the interval; in the nested iteration of `createVms` the
modulus is instead tested against `(i+1)*j` of the loop indices, so a
line is emitted at step (i, j) — running index `i*numVmPerNetwork + j` —
exactly when `(i+1)*j` is a multiple of the interval, which does not
coincide with the running submission count. -/
theorem progress_log_characterisation :
    (∀ count k : Nat, k ∈ createDomainsLogs count ↔
        1 ≤ k ∧ k ≤ count ∧ k % progressMarker count = 0) ∧
    (∀ nN nV r c : Nat, (r, c) ∈ createVmsLogs nN nV ↔
        ∃ i j : Nat, i < nN ∧ 1 ≤ j ∧ j ≤ nV ∧ r = i * nV + j ∧ c = i * j + j ∧
          (i * j + j) % progressMarker (nN * nV) = 0) := by
  constructor
  · intro count k
    simp only [createDomainsLogs, List.mem_filterMap, List.mem_range]
    constructor
    · rintro ⟨i, hi, hif⟩
      by_cases h : (i + 1) % progressMarker count = 0
      · rw [if_pos h] at hif
        injection hif with hk
        subst hk
        exact ⟨by omega, by omega, h⟩
      · rw [if_neg h] at hif
        cases hif
    · rintro ⟨h1, h2, h3⟩
      refine ⟨k - 1, by omega, ?_⟩
      rw [show k - 1 + 1 = k by omega, if_pos h3]
  · intro nN nV r c
    simp only [createVmsLogs, vmSteps, List.mem_filterMap, List.mem_flatMap,
      List.mem_map, List.mem_range]
    constructor
    · rintro ⟨ij, ⟨i, hi, ⟨j0, hj0, rfl⟩⟩, hif⟩
      by_cases h : (i * (j0 + 1) + (j0 + 1)) % progressMarker (nN * nV) = 0
      · rw [if_pos h] at hif
        injection hif with hp
        rw [Prod.mk.injEq] at hp
        exact ⟨i, j0 + 1, hi, by omega, by omega, hp.1.symm, hp.2.symm, h⟩
      · rw [if_neg h] at hif
        cases hif
    · rintro ⟨i, j, hi, hj1, hjn, rfl, rfl, h⟩
      refine ⟨(i, j), ⟨i, hi, ⟨j - 1, by omega, ?_⟩⟩, ?_⟩
      · rw [Nat.sub_add_cancel hj1]
      · rw [if_pos h]

theorem progress_log_characterisation_witness :
    2 ∈ createDomainsLogs 20 ∧ (5, 2) ∈ createVmsLogs 3 4 :=
  ⟨(progress_log_characterisation.1 20 2).mpr (by decide),
   (progress_log_characterisation.2 3 4 5 2).mpr
     ⟨1, 1, by decide, by decide, by decide, by decide, by decide, by decide⟩⟩

/-- C10: without an "admin" profile, `createResources` returns nil for
every flag combination and the subsequent report contains no category
rows; with an "admin" profile, exactly the categories of the enabled
flags appear as keys of the returned map. -/
theorem createResources_admin_gate :
    (∀ (flags : CreateFlags) (profileList : List Profile) (env : CategoryEnv),
        (∀ p ∈ profileList, p.Name ≠ "admin") →
          createResources flags profileList env = none ∧
          reportRows (resultsOrEmpty (createResources flags profileList env)) = []) ∧
    (∀ (flags : CreateFlags) (profileList : List Profile) (env : CategoryEnv),
        (∃ p ∈ profileList, p.Name = "admin") →
          ∃ m, createResources flags profileList env = some m ∧
            m.map Prod.fst =
              (if flags.domain then ["domain"] else []) ++
              (if flags.limits then ["limits"] else []) ++
              (if flags.network then ["network"] else []) ++
              (if flags.vm then ["vm"] else []) ++
              (if flags.volume then ["volume"] else [])) := by
  constructor
  · intro flags profileList env h
    have hnone : profileList.find? (fun p => p.Name == "admin") = none := by
      rw [List.find?_eq_none]
      intro p hp
      simpa using h p hp
    have hres : createResources flags profileList env = none := by
      unfold createResources
      rw [hnone]
    exact ⟨hres, by rw [hres]; rfl⟩
  · intro flags profileList env h
    obtain ⟨p, hp, hname⟩ := h
    have hsome : (profileList.find? (fun p => p.Name == "admin")).isSome := by
      rw [List.find?_isSome]
      exact ⟨p, hp, by simp [hname]⟩
    obtain ⟨q, hq⟩ := Option.isSome_iff_exists.mp hsome
    refine ⟨_, by unfold createResources; rw [hq], ?_⟩
    by_cases h1 : flags.domain <;> by_cases h2 : flags.limits <;>
      by_cases h3 : flags.network <;> by_cases h4 : flags.vm <;>
      by_cases h5 : flags.volume <;> simp [h1, h2, h3, h4, h5]

theorem createResources_admin_gate_witness :
    createResources ⟨true, false, false, true, false⟩ [⟨"user"⟩]
        ⟨[], [], [], [], []⟩ = none ∧
    ∃ m, createResources ⟨true, false, false, true, false⟩ [⟨"admin"⟩]
        ⟨[], [], [], [], []⟩ = some m ∧
      m.map Prod.fst = ["domain"] ++ [] ++ [] ++ ["vm"] ++ [] :=
  ⟨(createResources_admin_gate.1 ⟨true, false, false, true, false⟩ [⟨"user"⟩]
      ⟨[], [], [], [], []⟩ (by intro p hp; simp at hp; subst hp; decide)).1,
   by
    have h := createResources_admin_gate.2 ⟨true, false, false, true, false⟩ [⟨"admin"⟩]
      ⟨[], [], [], [], []⟩ ⟨⟨"admin"⟩, by simp, rfl⟩
    simpa using h⟩

theorem round3_one : round3 1 = 1 := by
  have h := round3_intCast 1
  simpa using h

/-- C4 counterexample: for the single category "x" holding one failed
result, `generateReport` invokes `getRowFromSample` on the empty success
sample — the claimed caller-side emptiness guard does not exist. -/
theorem reducer_empty_sample_invocation :
    ("x" ++ " - Successful", ([] : List ℚ)) ∈
      reducerInvocations [("x", [{ Success := false, Duration := 1 }])] := by
  simp [reducerInvocations, getSamples_eq, List.filter_cons, round3_one]

/-- C4 amended: only the Successful/Failed reducer calls are guarded, and
only by non-emptiness of the failure sample, so `getRowFromSample` can
receive an empty sample (an empty category list gives an empty All
sample; an all-failed category gives an empty Successful sample). When
every category is non-empty and contains a success whenever it contains a
failure, every reducer invocation does receive a non-empty sample. -/
theorem reducer_nonempty_under_guards
    (results : List (String × List Result))
    (h : ∀ kr ∈ results, kr.2 ≠ [] ∧
      ((∃ r ∈ kr.2, r.Success = false) → ∃ r ∈ kr.2, r.Success = true)) :
    ∀ inv ∈ reducerInvocations results, inv.2 ≠ [] := by
  intro inv hinv
  rw [reducerInvocations, List.mem_flatMap] at hinv
  obtain ⟨kr, hkr, hmem⟩ := hinv
  obtain ⟨hne, himp⟩ := h kr hkr
  rw [List.mem_cons] at hmem
  rcases hmem with hall | hrest
  · subst hall
    simp only [getSamples_eq, ne_eq, List.map_eq_nil_iff]
    exact hne
  · by_cases hf : (getSamples kr.2).2.2.length ≠ 0
    · rw [if_pos hf, List.mem_cons, List.mem_cons] at hrest
      have hfail : ∃ r ∈ kr.2, r.Success = false := by
        rw [getSamples_eq] at hf
        simp only [List.length_map] at hf
        rw [ne_eq, List.length_eq_zero, List.filter_eq_nil_iff] at hf
        push_neg at hf
        obtain ⟨r, hr, hrs⟩ := hf
        exact ⟨r, hr, by simpa using hrs⟩
      rcases hrest with hsucc | hfailed | habs
      · subst hsucc
        obtain ⟨r, hr, hrs⟩ := himp hfail
        simp only [getSamples_eq, ne_eq, List.map_eq_nil_iff, List.filter_eq_nil_iff]
        push_neg
        exact ⟨r, hr, by simp [hrs]⟩
      · subst hfailed
        simp only [ne_eq, ← List.length_eq_zero]
        exact hf
      · cases habs
    · rw [if_neg hf] at hrest
      cases hrest

theorem reducer_nonempty_under_guards_witness :
    ([(1 : ℚ)] : List ℚ) ≠ [] :=
  reducer_nonempty_under_guards [("y", [{ Success := true, Duration := 1 }])]
    (by
      intro kr hkr
      rw [List.mem_singleton] at hkr
      subst hkr
      exact ⟨by simp, fun _ => ⟨{ Success := true, Duration := 1 }, by simp, rfl⟩⟩)
    ("y" ++ " - All", [1])
    (by simp [reducerInvocations, getSamples_eq, List.filter_cons, round3_one])

/-- C5 counterexample: with a supplied destination (and successful file
creation) the render mirror is the destination file, not standard output —
the rendered output is not mirrored to stdout. -/
theorem report_not_mirrored_to_stdout :
    (generateReport [] "csv" "report.csv" true).mirror ≠ Writer.stdout := by
  simp [generateReport]

/-- C5 amended: the rendered output goes to standard output only when no
destination path is supplied; a supplied destination replaces stdout as
the sole mirror; when creating the destination fails, the error is logged
and report generation continues, but the mirror is then the invalid nil
handle, so the output is lost rather than degraded to stdout-only. -/
theorem report_mirror_behaviour (results : List (String × List Result))
    (format outputFile : String) (createOk : Bool) :
    ((generateReport results format outputFile createOk).mirror = Writer.stdout ↔
        outputFile = "") ∧
    (outputFile ≠ "" → createOk = true →
      (generateReport results format outputFile createOk).mirror = Writer.file outputFile ∧
      (generateReport results format outputFile createOk).errorLogged = false) ∧
    (outputFile ≠ "" → createOk = false →
      (generateReport results format outputFile createOk).mirror = Writer.invalid ∧
      (generateReport results format outputFile createOk).errorLogged = true) ∧
    (generateReport results format outputFile createOk).rows = reportRows results := by
  by_cases h : outputFile = "" <;> by_cases hc : createOk <;>
    simp [generateReport, h, hc]

theorem report_mirror_behaviour_witness :
    (generateReport [] "table" "out.txt" false).mirror = Writer.invalid ∧
    (generateReport [] "table" "out.txt" false).errorLogged = true :=
  (report_mirror_behaviour [] "table" "out.txt" false).2.2.1 (by decide) rfl

theorem getD_mem_of_lt (l : List ℚ) (i : Nat) (h : i < l.length) : l.getD i 0 ∈ l := by
  rw [List.getD_eq_getElem _ _ h]
  exact List.getElem_mem _

theorem sorted_getD_mono (l : List ℚ) (hl : List.Sorted (· ≤ ·) l) (i j : Nat)
    (hij : i ≤ j) (hj : j < l.length) : l.getD i 0 ≤ l.getD j 0 := by
  have hi : i < l.length := lt_of_le_of_lt hij hj
  rw [List.getD_eq_getElem _ _ hi, List.getD_eq_getElem _ _ hj]
  rcases Nat.lt_or_ge i j with hlt | hge
  · exact List.pairwise_iff_getElem.mp hl i j hi hj hlt
  · have : i = j := le_antisymm hij hge
    subst this
    exact le_refl _

theorem foldl_min_le (l : List ℚ) :
    ∀ a : ℚ, l.foldl min a ≤ a ∧ ∀ x ∈ l, l.foldl min a ≤ x := by
  induction l with
  | nil =>
      intro a
      exact ⟨le_refl a, by simp⟩
  | cons b l ih =>
      intro a
      have h := ih (min a b)
      refine ⟨le_trans h.1 (min_le_left a b), ?_⟩
      intro x hx
      rcases List.mem_cons.mp hx with rfl | hx'
      · exact le_trans h.1 (min_le_right a x)
      · exact h.2 x hx'

theorem foldl_max_ge (l : List ℚ) :
    ∀ a : ℚ, a ≤ l.foldl max a ∧ ∀ x ∈ l, x ≤ l.foldl max a := by
  induction l with
  | nil =>
      intro a
      exact ⟨le_refl a, by simp⟩
  | cons b l ih =>
      intro a
      have h := ih (max a b)
      refine ⟨le_trans (le_max_left a b) h.1, ?_⟩
      intro x hx
      rcases List.mem_cons.mp hx with rfl | hx'
      · exact le_trans (le_max_right a x) h.1
      · exact h.2 x hx'

theorem statsMin_spec (s : List ℚ) (h : s ≠ []) :
    ∃ m, statsMin s = some m ∧ ∀ x ∈ s, m ≤ x := by
  match s, h with
  | x :: xs, _ =>
    refine ⟨xs.foldl min x, rfl, ?_⟩
    intro y hy
    rcases List.mem_cons.mp hy with rfl | hy'
    · exact (foldl_min_le xs y).1
    · exact (foldl_min_le xs x).2 y hy'

theorem statsMax_spec (s : List ℚ) (h : s ≠ []) :
    ∃ M, statsMax s = some M ∧ ∀ x ∈ s, x ≤ M := by
  match s, h with
  | x :: xs, _ =>
    refine ⟨xs.foldl max x, rfl, ?_⟩
    intro y hy
    rcases List.mem_cons.mp hy with rfl | hy'
    · exact (foldl_max_ge xs y).1
    · exact (foldl_max_ge xs x).2 y hy'

theorem statsMedian_spec (s : List ℚ) (h : s ≠ []) (m M : ℚ)
    (hm : ∀ x ∈ s, m ≤ x) (hM : ∀ x ∈ s, x ≤ M) :
    ∃ v, statsMedian s = some v ∧ m ≤ v ∧ v ≤ M := by
  have hlen : (sortQ s).length = s.length := length_sortQ s
  have hpos : 0 < s.length := List.length_pos.mpr h
  have hmm : ∀ x ∈ sortQ s, m ≤ x := fun x hx => hm x ((mem_sortQ s x).mp hx)
  have hMM : ∀ x ∈ sortQ s, x ≤ M := fun x hx => hM x ((mem_sortQ s x).mp hx)
  have h0 : ¬ (sortQ s).length = 0 := by omega
  simp only [statsMedian]
  by_cases he : (sortQ s).length % 2 = 0
  · rw [if_neg h0, if_pos he]
    have hb1 : (sortQ s).length / 2 - 1 < (sortQ s).length := by omega
    have hb2 : (sortQ s).length / 2 < (sortQ s).length := by omega
    have hv1 := getD_mem_of_lt (sortQ s) _ hb1
    have hv2 := getD_mem_of_lt (sortQ s) _ hb2
    refine ⟨_, rfl, ?_, ?_⟩
    · have := hmm _ hv1
      have := hmm _ hv2
      linarith
    · have := hMM _ hv1
      have := hMM _ hv2
      linarith
  · rw [if_neg h0, if_neg he]
    have hb : (sortQ s).length / 2 < (sortQ s).length := by omega
    have hv := getD_mem_of_lt (sortQ s) _ hb
    exact ⟨_, rfl, hmm _ hv, hMM _ hv⟩

/-- The value the interpolating percentile selects at index position
`index` over a sorted copy `c` (proof-layer view of the two defined
branches of `statsPercentile`). -/
def pv (c : List ℚ) (index : ℚ) : ℚ :=
  if index = (⌊index⌋ : ℚ) then c.getD (⌊index⌋.toNat - 1) 0
  else (c.getD (⌊index⌋.toNat - 1) 0 + c.getD ⌊index⌋.toNat 0) / 2

theorem statsPercentile_eq_pv (s : List ℚ) (p : ℚ) (hn : 2 ≤ s.length)
    (hp0 : 0 < p) (hp100 : p ≤ 100) (hp1 : 1 < p / 100 * (s.length : ℚ)) :
    statsPercentile s p = some (pv (sortQ s) (p / 100 * (s.length : ℚ))) := by
  have h0 : ¬ s.length = 0 := by omega
  have h1 : ¬ s.length = 1 := by omega
  have hg : ¬ (p ≤ 0 ∨ 100 < p) := by
    push_neg
    exact ⟨hp0, hp100⟩
  simp only [statsPercentile, pv, length_sortQ]
  rw [if_neg h0, if_neg h1, if_neg hg]
  by_cases hw : p / 100 * (s.length : ℚ) = (⌊p / 100 * (s.length : ℚ)⌋ : ℚ)
  · rw [if_pos hw, if_pos hw]
  · rw [if_neg hw, if_neg hw, if_pos hp1]

theorem statsPercentile_one (s : List ℚ) (h : s.length = 1) (p : ℚ) :
    statsPercentile s p = some (s.getD 0 0) := by
  simp only [statsPercentile, h]
  norm_num

theorem pv_bounds (l : List ℚ) (index : ℚ) (h1 : 1 ≤ index)
    (hn : index ≤ ((sortQ l).length : ℚ)) (m M : ℚ)
    (hm : ∀ x ∈ l, m ≤ x) (hM : ∀ x ∈ l, x ≤ M) :
    m ≤ pv (sortQ l) index ∧ pv (sortQ l) index ≤ M := by
  have hmm : ∀ x ∈ sortQ l, m ≤ x := fun x hx => hm x ((mem_sortQ l x).mp hx)
  have hMM : ∀ x ∈ sortQ l, x ≤ M := fun x hx => hM x ((mem_sortQ l x).mp hx)
  have hK1 : 1 ≤ ⌊index⌋ := Int.le_floor.mpr (by exact_mod_cast h1)
  have hKn : ⌊index⌋ ≤ ((sortQ l).length : ℤ) := by
    have h2 := Int.floor_mono hn
    rwa [Int.floor_natCast] at h2
  unfold pv
  by_cases hw : index = (⌊index⌋ : ℚ)
  · rw [if_pos hw]
    have hb : ⌊index⌋.toNat - 1 < (sortQ l).length := by omega
    exact ⟨hmm _ (getD_mem_of_lt _ _ hb), hMM _ (getD_mem_of_lt _ _ hb)⟩
  · rw [if_neg hw]
    have hlt : index < ((sortQ l).length : ℚ) :=
      lt_of_le_of_ne hn (fun he => hw (by rw [he, Int.floor_natCast]; norm_cast))
    have hKn' : ⌊index⌋ < ((sortQ l).length : ℤ) := by
      have h2 : (⌊index⌋ : ℚ) ≤ index := Int.floor_le index
      exact_mod_cast lt_of_le_of_lt h2 hlt
    have hb1 : ⌊index⌋.toNat - 1 < (sortQ l).length := by omega
    have hb2 : ⌊index⌋.toNat < (sortQ l).length := by omega
    have hv1m := hmm _ (getD_mem_of_lt _ _ hb1)
    have hv2m := hmm _ (getD_mem_of_lt _ _ hb2)
    have hv1M := hMM _ (getD_mem_of_lt _ _ hb1)
    have hv2M := hMM _ (getD_mem_of_lt _ _ hb2)
    constructor <;> linarith

theorem pv_mono (c : List ℚ) (hc : List.Sorted (· ≤ ·) c) (x y : ℚ)
    (hx : 1 < x) (hxy : x ≤ y) (hy : y ≤ (c.length : ℚ)) :
    pv c x ≤ pv c y := by
  have hKx1 : 1 ≤ ⌊x⌋ := Int.le_floor.mpr (by exact_mod_cast hx.le)
  have hKxy : ⌊x⌋ ≤ ⌊y⌋ := Int.floor_mono hxy
  have hKy1 : 1 ≤ ⌊y⌋ := le_trans hKx1 hKxy
  have hKyn : ⌊y⌋ ≤ (c.length : ℤ) := by
    have h2 := Int.floor_mono hy
    rwa [Int.floor_natCast] at h2
  unfold pv
  by_cases hwx : x = (⌊x⌋ : ℚ) <;> by_cases hwy : y = (⌊y⌋ : ℚ)
  · -- both indices whole
    rw [if_pos hwx, if_pos hwy]
    exact sorted_getD_mono c hc _ _ (by omega) (by omega)
  · -- x whole, y fractional
    rw [if_pos hwx, if_neg hwy]
    have hylt : y < (c.length : ℚ) :=
      lt_of_le_of_ne hy (fun he => hwy (by rw [he, Int.floor_natCast]; norm_cast))
    have hKyn' : ⌊y⌋ < (c.length : ℤ) := by
      have h2 : (⌊y⌋ : ℚ) ≤ y := Int.floor_le y
      exact_mod_cast lt_of_le_of_lt h2 hylt
    have hg1 : c.getD (⌊x⌋.toNat - 1) 0 ≤ c.getD (⌊y⌋.toNat - 1) 0 :=
      sorted_getD_mono c hc _ _ (by omega) (by omega)
    have hg2 : c.getD (⌊y⌋.toNat - 1) 0 ≤ c.getD ⌊y⌋.toNat 0 :=
      sorted_getD_mono c hc _ _ (by omega) (by omega)
    linarith
  · -- x fractional, y whole
    rw [if_neg hwx, if_pos hwy]
    have hKlt : ⌊x⌋ < ⌊y⌋ := by
      rcases lt_or_eq_of_le hKxy with hlt | heq
      · exact hlt
      · exfalso
        apply hwx
        have hyx : y ≤ x := by
          rw [hwy, ← heq]
          exact Int.floor_le x
        have : x = y := le_antisymm hxy hyx
        rw [this, hwy, ← heq, Int.floor_intCast]
    have hg1 : c.getD (⌊x⌋.toNat - 1) 0 ≤ c.getD ⌊x⌋.toNat 0 :=
      sorted_getD_mono c hc _ _ (by omega) (by omega)
    have hg2 : c.getD ⌊x⌋.toNat 0 ≤ c.getD (⌊y⌋.toNat - 1) 0 :=
      sorted_getD_mono c hc _ _ (by omega) (by omega)
    linarith
  · -- both fractional
    rw [if_neg hwx, if_neg hwy]
    have hylt : y < (c.length : ℚ) :=
      lt_of_le_of_ne hy (fun he => hwy (by rw [he, Int.floor_natCast]; norm_cast))
    have hKyn' : ⌊y⌋ < (c.length : ℤ) := by
      have h2 : (⌊y⌋ : ℚ) ≤ y := Int.floor_le y
      exact_mod_cast lt_of_le_of_lt h2 hylt
    rcases lt_or_eq_of_le hKxy with hKlt | hKeq
    · have hg1 : c.getD (⌊x⌋.toNat - 1) 0 ≤ c.getD ⌊x⌋.toNat 0 :=
        sorted_getD_mono c hc _ _ (by omega) (by omega)
      have hg2 : c.getD ⌊x⌋.toNat 0 ≤ c.getD (⌊y⌋.toNat - 1) 0 :=
        sorted_getD_mono c hc _ _ (by omega) (by omega)
      have hg3 : c.getD (⌊y⌋.toNat - 1) 0 ≤ c.getD ⌊y⌋.toNat 0 :=
        sorted_getD_mono c hc _ _ (by omega) (by omega)
      linarith
    · rw [hKeq]

/-- C6: for every non-empty numeric sample, the statistics computed by
`getRowFromSample` satisfy min ≤ p90 ≤ p95 ≤ p99 ≤ max and
min ≤ median ≤ max. -/
theorem stat_row_percentiles_monotone (key : String) (s : List ℚ) (h : s ≠ []) :
    ∃ mn mx md a b c,
      (getRowFromSample key s).Min = some mn ∧
      (getRowFromSample key s).Max = some mx ∧
      (getRowFromSample key s).Median = some md ∧
      (getRowFromSample key s).P90 = some a ∧
      (getRowFromSample key s).P95 = some b ∧
      (getRowFromSample key s).P99 = some c ∧
      mn ≤ a ∧ a ≤ b ∧ b ≤ c ∧ c ≤ mx ∧ mn ≤ md ∧ md ≤ mx := by
  obtain ⟨m, hmin, hm⟩ := statsMin_spec s h
  obtain ⟨M, hmax, hM⟩ := statsMax_spec s h
  obtain ⟨dv, hmed, hdm, hdM⟩ := statsMedian_spec s h m M hm hM
  have hper : ∃ v90 v95 v99,
      statsPercentile s 90 = some v90 ∧ statsPercentile s 95 = some v95 ∧
      statsPercentile s 99 = some v99 ∧
      m ≤ v90 ∧ v90 ≤ v95 ∧ v95 ≤ v99 ∧ v99 ≤ M := by
    rcases Nat.lt_or_ge s.length 2 with h2 | h2
    · have h1 : s.length = 1 := by
        have := List.length_pos.mpr h
        omega
      have hv : s.getD 0 0 ∈ s := getD_mem_of_lt s 0 (by omega)
      exact ⟨_, _, _, statsPercentile_one s h1 90, statsPercentile_one s h1 95,
        statsPercentile_one s h1 99, hm _ hv, le_refl _, le_refl _, hM _ hv⟩
    · have hnq : (2 : ℚ) ≤ (s.length : ℚ) := by exact_mod_cast h2
      have hi90 : (1 : ℚ) < 90 / 100 * (s.length : ℚ) := by nlinarith
      have hi95 : (1 : ℚ) < 95 / 100 * (s.length : ℚ) := by nlinarith
      have hi99 : (1 : ℚ) < 99 / 100 * (s.length : ℚ) := by nlinarith
      have hle1 : (90 : ℚ) / 100 * (s.length : ℚ) ≤ 95 / 100 * (s.length : ℚ) := by
        nlinarith
      have hle2 : (95 : ℚ) / 100 * (s.length : ℚ) ≤ 99 / 100 * (s.length : ℚ) := by
        nlinarith
      have hn90 : (90 : ℚ) / 100 * (s.length : ℚ) ≤ ((sortQ s).length : ℚ) := by
        rw [length_sortQ]
        nlinarith
      have hn95 : (95 : ℚ) / 100 * (s.length : ℚ) ≤ ((sortQ s).length : ℚ) := by
        rw [length_sortQ]
        nlinarith
      have hn99 : (99 : ℚ) / 100 * (s.length : ℚ) ≤ ((sortQ s).length : ℚ) := by
        rw [length_sortQ]
        nlinarith
      have he90 := statsPercentile_eq_pv s 90 h2 (by norm_num) (by norm_num) hi90
      have he95 := statsPercentile_eq_pv s 95 h2 (by norm_num) (by norm_num) hi95
      have he99 := statsPercentile_eq_pv s 99 h2 (by norm_num) (by norm_num) hi99
      have hb90 := pv_bounds s _ hi90.le hn90 m M hm hM
      have hb99 := pv_bounds s _ hi99.le hn99 m M hm hM
      have hm1 := pv_mono (sortQ s) (sortQ_sorted s) _ _ hi90 hle1 hn95
      have hm2 := pv_mono (sortQ s) (sortQ_sorted s) _ _ hi95 hle2 hn99
      exact ⟨_, _, _, he90, he95, he99, hb90.1, hm1, hm2, hb99.2⟩
  obtain ⟨v90, v95, v99, he90, he95, he99, hb1, hb2, hb3, hb4⟩ := hper
  refine ⟨round3 m, round3 M, round3 dv, round3 v90, round3 v95, round3 v99,
    ?_, ?_, ?_, ?_, ?_, ?_, ?_, ?_, ?_, ?_, ?_, ?_⟩
  · simp [getRowFromSample, hmin]
  · simp [getRowFromSample, hmax]
  · simp [getRowFromSample, hmed]
  · simp [getRowFromSample, he90]
  · simp [getRowFromSample, he95]
  · simp [getRowFromSample, he99]
  · exact round3_mono hb1
  · exact round3_mono hb2
  · exact round3_mono hb3
  · exact round3_mono hb4
  · exact round3_mono hdm
  · exact round3_mono hdM

theorem stat_row_percentiles_monotone_witness :
    (([(2 : ℚ)] : List ℚ) ≠ []) ∧
    ∃ mn mx md a b c,
      (getRowFromSample "w" [(2 : ℚ)]).Min = some mn ∧
      (getRowFromSample "w" [(2 : ℚ)]).Max = some mx ∧
      (getRowFromSample "w" [(2 : ℚ)]).Median = some md ∧
      (getRowFromSample "w" [(2 : ℚ)]).P90 = some a ∧
      (getRowFromSample "w" [(2 : ℚ)]).P95 = some b ∧
      (getRowFromSample "w" [(2 : ℚ)]).P99 = some c ∧
      mn ≤ a ∧ a ≤ b ∧ b ≤ c ∧ c ≤ mx ∧ mn ≤ md ∧ md ≤ mx :=
  ⟨by simp, stat_row_percentiles_monotone "w" [2] (by simp)⟩

end CSBench
